import Mathlib

/-!
Verification of `subgraph_demo` (Uniswap subgraph collector / chart service).

The development shallowly embeds the three Python modules:
  * `subgraph.py`    — the `UniswapFetcher` (token metadata fetch and the
    paginated hour-data fetch loop);
  * `subgraph_dao.py` — the sqlite DAO (upsert / read of token metadata and
    hourly samples);
  * `orchestrator.py` — the collector cursor logic (`fetch_subgraph_data`)
    and the `/getChartData` aggregation handler (`get_chart_data`).

Python floats are modelled as rationals (`ℚ`); unix timestamps as `Nat`.
The network is modelled as an oracle function from the query parameters of a
page request to the page the upstream returns.  Raised Python exceptions are
modelled as explicit error constructors.
-/

namespace SubgraphDemo

/-- Token metadata as returned by the graph endpoint, mirroring the dataclass
`subgraph.Token`.  (The reserved field names are kept verbatim.) -/
structure Token where
  name : String
  symbol : String
  totalSupply : Int
  volumeUSD : ℚ
  decimals : ℚ
  deriving DecidableEq, Repr

/-- Hourly sample as returned by the graph endpoint, mirroring the dataclass
`subgraph.TokenHourData`.  The Python field `open` is a Lean keyword and is
rendered `open'`. -/
structure TokenHourData where
  periodStartUnix : Nat
  open' : ℚ
  close : ℚ
  high : ℚ
  low : ℚ
  priceUSD : ℚ
  deriving DecidableEq, Repr

/-- Outcome of `UniswapFetcher.fetch_uniswap_token`.  The code path
`raise f"Token ... not found"` (taken when the response is falsy or lacks the
`data` / `tokens` keys) raises a plain string, which in Python 3 surfaces as a
`TypeError`; `indexError` is the `IndexError` raised by
`response["data"]["tokens"][0]` when the token list is empty. -/
inductive TokenFetchOutcome
  | stringRaiseTypeError
  | indexError
  | ok (t : Token)
  deriving DecidableEq, Repr

/-- Model of `UniswapFetcher.fetch_uniswap_token` (`subgraph.py` lines 57-92).
The upstream response is abstracted to `resp`: `none` models a falsy response
or one missing the `data`/`tokens` keys; `some ts` models
`response["data"]["tokens"] = ts`.  The code guards only against missing keys
(raising a plain string), then unconditionally indexes `tokens[0]`. -/
def fetch_uniswap_token (resp : Option (List Token)) : TokenFetchOutcome :=
  match resp with
  | none => .stringRaiseTypeError
  | some [] => .indexError
  | some (t :: _) => .ok t

/-- Upstream oracle for the hour-data pagination: given the
`periodStartUnix_gte` and `periodStartUnix_lt` bounds of a page query, the
page of samples the subgraph returns. -/
def Upstream : Type := Nat → Nat → List TokenHourData

/-- The cursor the pagination loop recomputes at the top of each iteration
(`subgraph.py` lines 145-149): one past the last accumulated sample, or the
original start if nothing has been fetched. -/
def currStartOf (start_inclusive_secs : Nat) (fetched : List TokenHourData) : Nat :=
  match fetched.getLast? with
  | some d => d.periodStartUnix + 1
  | none => start_inclusive_secs

/-- The `while True` page loop of `fetch_uniswap_hour_datas` (`subgraph.py`
lines 144-168), with explicit fuel: each iteration queries
`[curr_start, end_exclusive_secs)`, extends the accumulator, and stops on an
empty page.  `none` means the fuel ran out (the Python loop would still be
running). -/
def fetchPagesLoop (upstream : Upstream) (start_inclusive_secs end_exclusive_secs : Nat)
    (fetched : List TokenHourData) : Nat → Option (List TokenHourData)
  | 0 => none
  | fuel + 1 =>
    let curr_start := currStartOf start_inclusive_secs fetched
    let page := upstream curr_start end_exclusive_secs
    if page.isEmpty then some (fetched ++ page)
    else fetchPagesLoop upstream start_inclusive_secs end_exclusive_secs (fetched ++ page) fuel

/-- Outcome of `fetch_uniswap_hour_datas`: a raised `ValueError` on an invalid
range, fuel exhaustion (a still-spinning loop), or the accumulated samples. -/
inductive PaginationOutcome
  | valueError (msg : String)
  | outOfFuel
  | ok (data : List TokenHourData)
  deriving DecidableEq, Repr

/-- Model of `UniswapFetcher.fetch_uniswap_hour_datas` (`subgraph.py` lines
94-170).  `now` is the value of `int(time.time())` at the range check.  The
range guards run before any page is requested from the upstream. -/
def fetch_uniswap_hour_datas (upstream : Upstream) (now : Nat)
    (start_inclusive_secs end_exclusive_secs : Nat) (fuel : Nat) : PaginationOutcome :=
  if start_inclusive_secs ≥ end_exclusive_secs then
    .valueError "Must be a positive time interval"
  else if end_exclusive_secs > now then
    .valueError "Time bound after current time"
  else
    match fetchPagesLoop upstream start_inclusive_secs end_exclusive_secs [] fuel with
    | none => .outOfFuel
    | some l => .ok l

/-- The upstream returns every page sorted strictly ascending by
`periodStartUnix` (the query orders by `periodStartUnix` and the subgraph has
at most one row per hour). -/
def PagesAscending (upstream : Upstream) : Prop :=
  ∀ c e, List.Chain' (fun a b => a.periodStartUnix < b.periodStartUnix) (upstream c e)

/-- The upstream honours the query window: every sample of a page for
`[c, e)` has `c ≤ periodStartUnix < e`. -/
def PagesInWindow (upstream : Upstream) : Prop :=
  ∀ c e, ∀ d ∈ upstream c e, c ≤ d.periodStartUnix ∧ d.periodStartUnix < e

/-- Every accumulator state the page loop can produce keeps `periodStartUnix`
strictly increasing: appending a page queried from one past the last
accumulated sample preserves the chain. -/
theorem fetchPagesLoop_chain (upstream : Upstream) (s e : Nat)
    (hasc : PagesAscending upstream) (hwin : PagesInWindow upstream) :
    ∀ (fuel : Nat) (fetched l : List TokenHourData),
      List.Chain' (fun a b => a.periodStartUnix < b.periodStartUnix) fetched →
      fetchPagesLoop upstream s e fetched fuel = some l →
      List.Chain' (fun a b => a.periodStartUnix < b.periodStartUnix) l := by
  intro fuel
  induction fuel with
  | zero => intro fetched l _ h; simp [fetchPagesLoop] at h
  | succ fuel ih =>
    intro fetched l hch h
    rw [fetchPagesLoop] at h
    set cs := currStartOf s fetched with hcs
    by_cases hp : (upstream cs e).isEmpty
    · rw [if_pos hp] at h
      rw [List.isEmpty_iff] at hp
      cases h
      simpa [hp] using hch
    · rw [if_neg hp] at h
      refine ih (fetched ++ upstream cs e) l ?_ h
      refine hch.append (hasc cs e) ?_
      intro x hx y hy
      have hylo := (hwin cs e y (List.mem_of_mem_head? hy)).1
      have hxlast : currStartOf s fetched = x.periodStartUnix + 1 := by
        unfold currStartOf
        rw [show fetched.getLast? = some x from hx]
      omega

/-- If every page fits inside the queried window, the cursor strictly
advances while staying bounded by the end of the range, so fuel
`e - cursor + 1` suffices for the loop to finish. -/
theorem fetchPagesLoop_total (upstream : Upstream) (s e : Nat)
    (hwin : PagesInWindow upstream) :
    ∀ (fuel : Nat) (fetched : List TokenHourData),
      currStartOf s fetched ≤ e →
      e - currStartOf s fetched < fuel →
      (fetchPagesLoop upstream s e fetched fuel).isSome := by
  intro fuel
  induction fuel with
  | zero => intro fetched _ hlt; omega
  | succ fuel ih =>
    intro fetched hle hlt
    rw [fetchPagesLoop]
    set cs := currStartOf s fetched with hcs
    by_cases hp : (upstream cs e).isEmpty
    · simp [hp]
    · rw [if_neg hp]
      have hne : upstream cs e ≠ [] := fun h => hp (by simp [h])
      obtain ⟨d, hd⟩ := List.getLast?_isSome.mpr hne |> Option.isSome_iff_exists.mp
      have hdmem : d ∈ upstream cs e := List.mem_of_mem_getLast? hd
      have hdwin := hwin cs e d hdmem
      have hcs' : currStartOf s (fetched ++ upstream cs e) = d.periodStartUnix + 1 := by
        unfold currStartOf
        rw [List.getLast?_append_of_ne_nil _ hne, hd]
      exact ih (fetched ++ upstream cs e) (by omega) (by omega)

/-- Claim C1: for a valid range and any number of upstream pages, under the
hypotheses that each page is strictly ascending by `periodStartUnix` and
contained in the queried `[cursor, end_exclusive_secs)` window,
`fetch_uniswap_hour_datas` returns samples whose `periodStartUnix` values are
strictly increasing with no duplicates. -/
theorem fetch_uniswap_hour_datas_strict_increase (upstream : Upstream)
    (now s e fuel : Nat) (l : List TokenHourData)
    (hasc : PagesAscending upstream) (hwin : PagesInWindow upstream)
    (hok : fetch_uniswap_hour_datas upstream now s e fuel = .ok l) :
    List.Pairwise (fun a b => a.periodStartUnix < b.periodStartUnix) l ∧
    (l.map TokenHourData.periodStartUnix).Nodup := by
  have hloop : fetchPagesLoop upstream s e [] fuel = some l := by
    by_cases h1 : s ≥ e
    · simp [fetch_uniswap_hour_datas, h1] at hok
    · by_cases h2 : e > now
      · simp [fetch_uniswap_hour_datas, h1, h2] at hok
      · rcases h3 : fetchPagesLoop upstream s e [] fuel with _ | l'
        · simp [fetch_uniswap_hour_datas, h1, h2, h3] at hok
        · simp [fetch_uniswap_hour_datas, h1, h2, h3] at hok
          rw [hok]
  have hchain := fetchPagesLoop_chain upstream s e hasc hwin fuel [] l
    List.chain'_nil hloop
  haveI : IsTrans TokenHourData (fun a b => a.periodStartUnix < b.periodStartUnix) :=
    ⟨fun _ _ _ h1 h2 => lt_trans h1 h2⟩
  have hpw : List.Pairwise (fun a b => a.periodStartUnix < b.periodStartUnix) l :=
    List.chain'_iff_pairwise.mp hchain
  refine ⟨hpw, ?_⟩
  exact hpw.map TokenHourData.periodStartUnix (fun a b h => Nat.ne_of_lt h)

/-- Claim C5: with `start_inclusive_secs ≥ end_exclusive_secs` or
`end_exclusive_secs` beyond the current wall-clock time,
`fetch_uniswap_hour_datas` raises a `ValueError` (the spec's `RangeError`)
and the outcome does not depend on the upstream at all: no page is requested. -/
theorem fetch_uniswap_hour_datas_range_guard (upstream : Upstream)
    (now s e fuel : Nat) (h : s ≥ e ∨ e > now) :
    (∃ msg, fetch_uniswap_hour_datas upstream now s e fuel = .valueError msg) ∧
    ∀ upstream' : Upstream,
      fetch_uniswap_hour_datas upstream now s e fuel =
        fetch_uniswap_hour_datas upstream' now s e fuel := by
  by_cases h1 : s ≥ e
  · constructor
    · exact ⟨_, by rw [fetch_uniswap_hour_datas, if_pos h1]⟩
    · intro upstream'
      rw [fetch_uniswap_hour_datas, if_pos h1, fetch_uniswap_hour_datas, if_pos h1]
  · have h2 : e > now := h.resolve_left h1
    constructor
    · exact ⟨_, by rw [fetch_uniswap_hour_datas, if_neg h1, if_pos h2]⟩
    · intro upstream'
      rw [fetch_uniswap_hour_datas, if_neg h1, if_pos h2,
        fetch_uniswap_hour_datas, if_neg h1, if_pos h2]

/-- Claim C6: for a valid range, under the page hypotheses, the page loop
terminates — fuel `e - s + 1` (or more) is never exhausted and the call
returns an accumulated result. -/
theorem fetch_uniswap_hour_datas_terminates (upstream : Upstream)
    (now s e fuel : Nat)
    (hasc : PagesAscending upstream) (hwin : PagesInWindow upstream)
    (hrange : s < e) (hnow : e ≤ now) (hfuel : e - s < fuel) :
    ∃ l, fetch_uniswap_hour_datas upstream now s e fuel = .ok l := by
  have _ := hasc
  rw [fetch_uniswap_hour_datas, if_neg (by omega), if_neg (by omega)]
  have htot := fetchPagesLoop_total upstream s e hwin fuel []
    (by unfold currStartOf; simpa using Nat.le_of_lt hrange)
    (by unfold currStartOf; simpa using hfuel)
  obtain ⟨l, hl⟩ := Option.isSome_iff_exists.mp htot
  exact ⟨l, by rw [hl]⟩

/-- Claim C4: evaluation of `fetch_uniswap_token` at the failing input.  When
the upstream responds `{"data": {"tokens": []}}` — no matching token — the
code reaches `response["data"]["tokens"][0]` and dies with an `IndexError`,
not the not-found error the spec requires (the guard that was meant to catch
this case only checks for missing keys, and even that path `raise`s a plain
string, a `TypeError` in Python 3).  A non-empty token list does return the
first token's metadata. -/
theorem fetch_uniswap_token_outcomes :
    fetch_uniswap_token (some []) = .indexError ∧
    (∀ msg, TokenFetchOutcome.indexError ≠ .stringRaiseTypeError ∧
      TokenFetchOutcome.indexError ≠ .ok msg) ∧
    ∀ t ts, fetch_uniswap_token (some (t :: ts)) = .ok t := by
  refine ⟨rfl, fun msg => ⟨by simp, by simp⟩, fun t ts => rfl⟩

/-- Concrete sample used by the witnesses: hour 2. -/
def sampleA : TokenHourData := ⟨2, 1, 1, 1, 1, 1⟩

/-- Concrete sample used by the witnesses: hour 4. -/
def sampleB : TokenHourData := ⟨4, 2, 2, 2, 2, 2⟩

/-- Concrete well-behaved upstream holding the two samples; every page is the
subset of the dataset inside the queried window, so the loop needs two
non-empty pages (one per sample) before exhaustion. -/
def upstreamTwoPages : Upstream := fun c e =>
  [sampleA, sampleB].filter
    (fun d => decide (c ≤ d.periodStartUnix) && decide (d.periodStartUnix < e))

theorem upstreamTwoPages_ascending : PagesAscending upstreamTwoPages := by
  intro c e
  refine List.Pairwise.chain' (List.Pairwise.filter _ ?_)
  decide

theorem upstreamTwoPages_in_window : PagesInWindow upstreamTwoPages := by
  intro c e d hd
  rw [upstreamTwoPages, List.mem_filter] at hd
  have := hd.2
  simp only [Bool.and_eq_true, decide_eq_true_eq] at this
  exact this

/-- Witness for claim C1: the two-sample upstream satisfies both page
hypotheses and a concrete paginated call returns `[sampleA, sampleB]`, whose
timestamps are strictly increasing and duplicate-free. -/
theorem fetch_uniswap_hour_datas_strict_increase_witness :
    PagesAscending upstreamTwoPages ∧ PagesInWindow upstreamTwoPages ∧
    fetch_uniswap_hour_datas upstreamTwoPages 5 1 5 5 = .ok [sampleA, sampleB] ∧
    (List.Pairwise (fun a b => a.periodStartUnix < b.periodStartUnix)
        [sampleA, sampleB] ∧
      ([sampleA, sampleB].map TokenHourData.periodStartUnix).Nodup) :=
  ⟨upstreamTwoPages_ascending, upstreamTwoPages_in_window, by decide,
    fetch_uniswap_hour_datas_strict_increase upstreamTwoPages 5 1 5 5
      [sampleA, sampleB] upstreamTwoPages_ascending upstreamTwoPages_in_window
      (by decide)⟩

/-- Witness for claim C5: a reversed range (start 5, end 3, now 100) raises a
`ValueError` and the outcome is independent of the upstream. -/
theorem fetch_uniswap_hour_datas_range_guard_witness :
    ((5 : Nat) ≥ 3 ∨ (3 : Nat) > 100) ∧
    ((∃ msg, fetch_uniswap_hour_datas upstreamTwoPages 100 5 3 7 = .valueError msg) ∧
      ∀ upstream' : Upstream,
        fetch_uniswap_hour_datas upstreamTwoPages 100 5 3 7 =
          fetch_uniswap_hour_datas upstream' 100 5 3 7) :=
  ⟨Or.inl (by decide),
    fetch_uniswap_hour_datas_range_guard upstreamTwoPages 100 5 3 7
      (Or.inl (by decide))⟩

/-- Witness for claim C6: on the valid range `[1, 5)` with `now = 5`, fuel
`5` (strictly more than `e - s = 4`) is enough for the loop to finish. -/
theorem fetch_uniswap_hour_datas_terminates_witness :
    (PagesAscending upstreamTwoPages ∧ PagesInWindow upstreamTwoPages ∧
      (1 : Nat) < 5 ∧ (5 : Nat) ≤ 5 ∧ (5 : Nat) - 1 < 5) ∧
    ∃ l, fetch_uniswap_hour_datas upstreamTwoPages 5 1 5 5 = .ok l :=
  ⟨⟨upstreamTwoPages_ascending, upstreamTwoPages_in_window, by decide, by decide,
      by decide⟩,
    fetch_uniswap_hour_datas_terminates upstreamTwoPages 5 1 5 5
      upstreamTwoPages_ascending upstreamTwoPages_in_window (by decide) (by decide)
      (by decide)⟩

namespace Dao

/-- Token metadata row, mirroring the dataclass `subgraph_dao.Token`. -/
structure Token where
  name : String
  symbol : String
  total_supply : Int
  volume_usd : ℚ
  decimals : ℚ
  deriving DecidableEq, Repr

/-- Hourly sample row, mirroring the dataclass `subgraph_dao.TokenHourData`.
The Python field `open` is rendered `open'`. -/
structure TokenHourData where
  token_symbol : String
  period_start_unix : Nat
  open' : ℚ
  close : ℚ
  high : ℚ
  low : ℚ
  price_usd : ℚ
  deriving DecidableEq, Repr

/-- Conflict test of the `UNIQUE(token_symbol, period_start_unix)` constraint
of the `token_hour_data` table. -/
def sameHourKey (a b : TokenHourData) : Bool :=
  decide (a.token_symbol = b.token_symbol) && decide (a.period_start_unix = b.period_start_unix)

/-- One `INSERT OR REPLACE` into `token_hour_data`: sqlite deletes every row
conflicting on the unique key and appends the fresh row at the end (with a
fresh autoincrement id). -/
def upsert_token_hour_data (state : List TokenHourData) (r : TokenHourData) :
    List TokenHourData :=
  state.filter (fun q => !(sameHourKey q r)) ++ [r]

/-- Model of `SubgraphDAO.upsert_token_hour_data_batch` (`subgraph_dao.py`
lines 98-119): `executemany` performs the row upserts in batch order. -/
def upsert_token_hour_data_batch (state : List TokenHourData)
    (batch : List TokenHourData) : List TokenHourData :=
  batch.foldl upsert_token_hour_data state

/-- Model of `SubgraphDAO.get_token_hour_data` (`subgraph_dao.py` lines
121-143): `SELECT * ... WHERE token_symbol=? ORDER BY period_start_unix ASC`. -/
def get_token_hour_data (state : List TokenHourData) (token_symbol : String) :
    List TokenHourData :=
  List.insertionSort (fun a b => a.period_start_unix ≤ b.period_start_unix)
    (state.filter (fun r => decide (r.token_symbol = token_symbol)))

/-- One `INSERT OR REPLACE` into `token_metadata` (unique on `symbol`),
modelling `SubgraphDAO.upsert_token_metadata`. -/
def upsert_token_metadata (state : List Token) (t : Token) : List Token :=
  state.filter (fun q => !(decide (q.symbol = t.symbol))) ++ [t]

/-- Model of `SubgraphDAO.get_token_metadata` (`subgraph_dao.py` lines
145-164): `fetchone` on `SELECT * ... WHERE symbol=?`, `None` if no row. -/
def get_token_metadata (state : List Token) (token_symbol : String) : Option Token :=
  state.find? (fun r => decide (r.symbol = token_symbol))

end Dao

/-- Well-formedness of the `token_hour_data` table: the
`UNIQUE(token_symbol, period_start_unix)` constraint holds, i.e. no two rows
share the composite key.  Sqlite maintains this for every reachable state. -/
def HourTableWF (state : List Dao.TokenHourData) : Prop :=
  state.Pairwise (fun a b => Dao.sameHourKey a b = false)

theorem sameHourKey_comm (a b : Dao.TokenHourData) :
    Dao.sameHourKey a b = Dao.sameHourKey b a := by
  simp only [Dao.sameHourKey]
  rw [decide_eq_decide.mpr (eq_comm), Bool.and_comm,
    decide_eq_decide.mpr (eq_comm), Bool.and_comm]

theorem sameHourKey_self (a : Dao.TokenHourData) : Dao.sameHourKey a a = true := by
  simp [Dao.sameHourKey]

/-- In a well-formed table, the rows conflicting with an already-present row
`r` are exactly `[r]`. -/
theorem filter_sameHourKey_eq_single (state : List Dao.TokenHourData)
    (r : Dao.TokenHourData) (hwf : HourTableWF state) (hr : r ∈ state) :
    state.filter (fun q => Dao.sameHourKey q r) = [r] := by
  induction state with
  | nil => cases hr
  | cons a t ih =>
    unfold HourTableWF at hwf
    rw [List.pairwise_cons] at hwf
    rcases List.mem_cons.mp hr with rfl | hrt
    · rw [List.filter_cons_of_pos (by simpa using sameHourKey_self r)]
      rw [List.filter_eq_nil_iff.mpr ?_]
      intro b hb
      have := hwf.1 b hb
      rw [sameHourKey_comm] at this
      simp [this]
    · rw [List.filter_cons_of_neg ?_, ih hwf.2 hrt]
      have := hwf.1 r hrt
      simp [this]

/-- Re-upserting a row already present permutes the table (the row moves to
the end, nothing is added or dropped). -/
theorem upsert_mem_perm (state : List Dao.TokenHourData) (r : Dao.TokenHourData)
    (hwf : HourTableWF state) (hr : r ∈ state) :
    (Dao.upsert_token_hour_data state r).Perm state := by
  have hsplit := List.filter_append_perm (fun q => Dao.sameHourKey q r) state
  rw [filter_sameHourKey_eq_single state r hwf hr] at hsplit
  exact List.Perm.trans List.perm_append_comm hsplit

theorem hourTableWF_of_perm {s1 s2 : List Dao.TokenHourData} (hperm : s1.Perm s2)
    (hwf : HourTableWF s1) : HourTableWF s2 :=
  (hperm.pairwise_iff (fun {a b} h => by rw [sameHourKey_comm]; exact h)).mp hwf

/-- Re-upserting a batch of rows all of which are already present permutes
the table. -/
theorem upsert_batch_mem_perm :
    ∀ (batch state : List Dao.TokenHourData), HourTableWF state →
      (∀ r ∈ batch, r ∈ state) →
      (Dao.upsert_token_hour_data_batch state batch).Perm state := by
  intro batch
  induction batch with
  | nil => intro state _ _; exact List.Perm.refl state
  | cons r rest ih =>
    intro state hwf hmem
    have h1 : (Dao.upsert_token_hour_data state r).Perm state :=
      upsert_mem_perm state r hwf (hmem r (by simp))
    have h2 := ih (Dao.upsert_token_hour_data state r)
      (hourTableWF_of_perm h1.symm hwf)
      (fun q hq => h1.mem_iff.mpr (hmem q (by simp [hq])))
    exact h2.trans h1

/-- Reads only depend on the table up to permutation (given well-formedness):
the selected rows of one token have pairwise-distinct `period_start_unix`, so
sorting them by that column is injective up to permutation. -/
theorem get_token_hour_data_eq_of_perm (s1 s2 : List Dao.TokenHourData)
    (sym : String) (hperm : s1.Perm s2) (hwf : HourTableWF s1) :
    Dao.get_token_hour_data s1 sym = Dao.get_token_hour_data s2 sym := by
  haveI : IsTotal Dao.TokenHourData
      (fun a b => a.period_start_unix ≤ b.period_start_unix) :=
    ⟨fun a b => Nat.le_total _ _⟩
  haveI : IsTrans Dao.TokenHourData
      (fun a b => a.period_start_unix ≤ b.period_start_unix) :=
    ⟨fun _ _ _ h1 h2 => le_trans h1 h2⟩
  haveI : IsAntisymm Dao.TokenHourData
      (fun a b => a.period_start_unix < b.period_start_unix) :=
    ⟨fun a b h1 h2 => absurd (lt_trans h1 h2) (lt_irrefl _)⟩
  have key : ∀ s : List Dao.TokenHourData, HourTableWF s →
      List.Sorted (fun a b : Dao.TokenHourData =>
          a.period_start_unix < b.period_start_unix)
        (Dao.get_token_hour_data s sym) := by
    intro s hwfs
    have hsorted := List.sorted_insertionSort
      (fun a b : Dao.TokenHourData => a.period_start_unix ≤ b.period_start_unix)
      (s.filter (fun r => decide (r.token_symbol = sym)))
    have hpermsort := List.perm_insertionSort
      (fun a b : Dao.TokenHourData => a.period_start_unix ≤ b.period_start_unix)
      (s.filter (fun r => decide (r.token_symbol = sym)))
    have hkeys : (Dao.get_token_hour_data s sym).Pairwise
        (fun a b => Dao.sameHourKey a b = false) :=
      (hpermsort.pairwise_iff (fun {a b} h => by rw [sameHourKey_comm]; exact h)).mpr
        (List.Pairwise.sublist (List.filter_sublist _) hwfs)
    have htok : ∀ x ∈ Dao.get_token_hour_data s sym, x.token_symbol = sym := by
      intro x hx
      have := hpermsort.mem_iff.mp hx
      exact of_decide_eq_true (List.mem_filter.mp this).2
    refine List.Pairwise.imp_of_mem ?_ (hsorted.and hkeys)
    intro a b ha hb hab
    rcases hab with ⟨hle, hkey⟩
    refine lt_of_le_of_ne hle ?_
    intro hpeq
    rw [Dao.sameHourKey, htok a ha, htok b hb] at hkey
    simp [hpeq] at hkey
  have hfilter : (s1.filter (fun r => decide (r.token_symbol = sym))).Perm
      (s2.filter (fun r => decide (r.token_symbol = sym))) := hperm.filter _
  have hchain : (Dao.get_token_hour_data s1 sym).Perm
      (Dao.get_token_hour_data s2 sym) :=
    ((List.perm_insertionSort _ _).trans hfilter).trans
      (List.perm_insertionSort _ _).symm
  exact List.eq_of_perm_of_sorted hchain (key s1 hwf)
    (key s2 (hourTableWF_of_perm hperm hwf))

/-- Claim C7: re-upserting a batch of `HourlySample`s each identical to one
already stored is idempotent — for every well-formed prior table state, a
subsequent ordered read for any token returns exactly what it returned before
the re-upsert. -/
theorem upsert_token_hour_data_batch_idempotent
    (state batch : List Dao.TokenHourData) (sym : String)
    (hwf : HourTableWF state) (hmem : ∀ r ∈ batch, r ∈ state) :
    Dao.get_token_hour_data (Dao.upsert_token_hour_data_batch state batch) sym =
      Dao.get_token_hour_data state sym :=
  get_token_hour_data_eq_of_perm _ _ sym
    (upsert_batch_mem_perm batch state hwf hmem)
    (hourTableWF_of_perm (upsert_batch_mem_perm batch state hwf hmem).symm hwf)

/-- Concrete stored row used by the C7 witness. -/
def rowWBTC : Dao.TokenHourData := ⟨"WBTC", 3600, 10, 11, 12, 9, 10⟩

/-- Witness for claim C7: a one-row table re-upserted with the identical row
reads back unchanged. -/
theorem upsert_token_hour_data_batch_idempotent_witness :
    (HourTableWF [rowWBTC] ∧ (∀ r ∈ [rowWBTC], r ∈ [rowWBTC])) ∧
    Dao.get_token_hour_data
        (Dao.upsert_token_hour_data_batch [rowWBTC] [rowWBTC]) "WBTC" =
      Dao.get_token_hour_data [rowWBTC] "WBTC" :=
  ⟨⟨by simp [HourTableWF], fun r hr => hr⟩,
    upsert_token_hour_data_batch_idempotent [rowWBTC] [rowWBTC] "WBTC"
      (by simp [HourTableWF]) (fun r hr => hr)⟩

/-- Conversion applied by `UniswapDataCollector.fetch_subgraph_data` before
upserting (`orchestrator.py` lines 127-138). -/
def toDaoHourData (symbol : String) (d : TokenHourData) : Dao.TokenHourData :=
  ⟨symbol, d.periodStartUnix, d.open', d.close, d.high, d.low, d.priceUSD⟩

/-- Model of `UniswapDataCollector.fetch_subgraph_data` (`orchestrator.py`
lines 114-140): fetch `[start_time_secs, now)` via the paginator, upsert what
came back, and return the new table together with the value the collector
uses as the next cycle's start time — `new_hour_data[-1].periodStartUnix` if
anything was fetched, else `start_time_secs` unchanged (`poll_hourly_data`
feeds this return value back as the next query start).  `none` models a
raised `ValueError` or a non-terminating page loop. -/
def fetch_subgraph_data (upstream : Upstream) (symbol : String)
    (state : List Dao.TokenHourData) (start_time_secs now fuel : Nat) :
    Option (List Dao.TokenHourData × Nat) :=
  match fetch_uniswap_hour_datas upstream now start_time_secs now fuel with
  | .ok new_hour_data =>
    some (Dao.upsert_token_hour_data_batch state
        (new_hour_data.map (toDaoHourData symbol)),
      match new_hour_data.getLast? with
      | some d => d.periodStartUnix
      | none => start_time_secs)
  | _ => none

/-- Counterexample to claim C2 as stated: a cycle at `[1, 3)` against the
two-sample upstream fetches exactly `sampleA` (hour 2), and the collector's
next query start is `2 = sampleA.periodStartUnix` — not
`sampleA.periodStartUnix + 1` as the claim requires. -/
theorem fetch_subgraph_data_cursor_no_plus_one :
    fetch_subgraph_data upstreamTwoPages "TKN" [] 1 3 5 =
      some ([toDaoHourData "TKN" sampleA], sampleA.periodStartUnix) ∧
    sampleA.periodStartUnix ≠ sampleA.periodStartUnix + 1 := by
  constructor
  · decide
  · decide

/-- Claim C2 (amended): whenever a fetch cycle returns at least one sample,
the next start the collector will query from equals the **last fetched
sample's `periodStartUnix`** (with no `+ 1`), and it equals the configured
start (backfill origin) when the cycle fetched nothing. -/
theorem fetch_subgraph_data_cursor (upstream : Upstream) (symbol : String)
    (state : List Dao.TokenHourData) (start_time_secs now fuel : Nat)
    (l : List TokenHourData)
    (hok : fetch_uniswap_hour_datas upstream now start_time_secs now fuel = .ok l) :
    (fetch_subgraph_data upstream symbol state start_time_secs now fuel).map
        Prod.snd =
      some (match l.getLast? with
        | some d => d.periodStartUnix
        | none => start_time_secs) := by
  rw [fetch_subgraph_data, hok]
  rfl

/-- Witness for claim C2 (amended): the concrete cycle of the counterexample
instantiates the amended cursor rule with a non-empty fetch. -/
theorem fetch_subgraph_data_cursor_witness :
    fetch_uniswap_hour_datas upstreamTwoPages 3 1 3 5 = .ok [sampleA] ∧
    (fetch_subgraph_data upstreamTwoPages "TKN" [] 1 3 5).map Prod.snd =
      some (match [sampleA].getLast? with
        | some d => d.periodStartUnix
        | none => 1) :=
  ⟨by decide,
    fetch_subgraph_data_cursor upstreamTwoPages "TKN" [] 1 3 5 [sampleA]
      (by decide)⟩

/-- Python's `str.upper()` as used on the path parameter: character-wise
uppercase. -/
def pyUpper (s : String) : String := String.mk (s.data.map Char.toUpper)

/-- Python's `range(start, stop, step)` for a positive step: the
`⌈(stop - start) / step⌉` values `start + k * step` below `stop`. -/
def pyRange (start stop step : Nat) : List Nat :=
  (List.range ((stop - start + step - 1) / step)).map (fun k => start + k * step)

/-- Python dict assignment `d[k] = v` on an insertion-ordered dict modelled
as an association list: overwrite in place if the key exists, else append. -/
def pyDictSet (d : List (Nat × List ℚ)) (k : Nat) (v : List ℚ) :
    List (Nat × List ℚ) :=
  if d.any (fun kv => decide (kv.1 = k)) then
    d.map (fun kv => if kv.1 = k then (kv.1, v) else kv)
  else d ++ [(k, v)]

/-- The grouping step of the handler: `chunk_data[chunk_start].append(value)`
guarded by `if chunk_start not in chunk_data: chunk_data[chunk_start] = []`
(`orchestrator.py` lines 63-67). -/
def pyDictAppendVal (d : List (Nat × List ℚ)) (k : Nat) (x : ℚ) :
    List (Nat × List ℚ) :=
  if d.any (fun kv => decide (kv.1 = k)) then
    d.map (fun kv => if kv.1 = k then (kv.1, kv.2 ++ [x]) else kv)
  else d ++ [(k, [x])]

/-- The pre-seeding dict comprehension of the handler (`orchestrator.py`
lines 52-60): every bucket key between the first and last stored sample gets
an empty value list. -/
def seedChunks (firstStart lastStart bucketSecs : Nat) : List (Nat × List ℚ) :=
  (pyRange firstStart lastStart bucketSecs).foldl
    (fun d s => pyDictSet d (s / bucketSecs) []) []

/-- The grouping loop of the handler (`orchestrator.py` lines 62-67). -/
def groupChunks (d : List (Nat × List ℚ)) (entries : List Dao.TokenHourData)
    (value : Dao.TokenHourData → ℚ) (bucketSecs : Nat) : List (Nat × List ℚ) :=
  entries.foldl
    (fun d e => pyDictAppendVal d (e.period_start_unix / bucketSecs) (value e)) d

/-- The averaging loop (`orchestrator.py` lines 69-73): per chunk emit
`[transform_time(chunk_start_unix), attr, avg]`, `None` for an empty value
list.  The triple keeps the raw `chunk_start_unix` that the code feeds to the
local-clock formatter `transform_time`. -/
def chunkAverages (d : List (Nat × List ℚ)) (bucketSecs : Nat) (attr : String) :
    List (Nat × String × Option ℚ) :=
  d.map (fun kv =>
    (kv.1 * bucketSecs, attr,
      if kv.2.isEmpty then none else some (kv.2.sum / kv.2.length)))

/-- The five averaged attributes, in the handler's fixed order. -/
def attrNames : List String := ["open", "close", "high", "low", "price_usd"]

/-- Python's `getattr(entry, attr)` for the five averaged attributes. -/
def getAttr (e : Dao.TokenHourData) (a : String) : ℚ :=
  if a = "open" then e.open'
  else if a = "close" then e.close
  else if a = "high" then e.high
  else if a = "low" then e.low
  else e.price_usd

/-- The per-attribute series built by the handler for a non-empty sample
list. -/
def chartSeries (samples : List Dao.TokenHourData)
    (firstE lastE : Dao.TokenHourData) (bucketSecs : Nat) :
    List (List (Nat × String × Option ℚ)) :=
  attrNames.map (fun attr =>
    chunkAverages
      (groupChunks (seedChunks firstE.period_start_unix lastE.period_start_unix bucketSecs)
        samples (fun e => getAttr e attr) bucketSecs)
      bucketSecs attr)

/-- Response body of `GET /getChartData/{token_symbol}`. -/
structure ChartResponse where
  token_metadata : Option Dao.Token
  hour_data_result : List (List (Nat × String × Option ℚ))
  deriving DecidableEq, Repr

/-- Outcome of the handler: `indexError` is the `IndexError` raised by
`token_hour_data_list[0]` when the symbol has no stored samples (the spec's
`NoDataError`), `valueError` the `ValueError` `range` raises on a zero step
(`time_unit_hours = 0`), and `ok` a 200 response. -/
inductive ChartOutcome
  | indexError
  | valueError
  | ok (r : ChartResponse)
  deriving DecidableEq, Repr

/-- Model of the `GET /getChartData/{token_symbol}` handler `get_chart_data`
(`orchestrator.py` lines 37-77).  Both reads use the uppercased path
parameter; the first sample's bucket, the last sample's bucket and the stored
samples drive the seeding / grouping / averaging pipeline. -/
def get_chart_data (hourState : List Dao.TokenHourData)
    (metaState : List Dao.Token) (token_symbol : String)
    (time_unit_hours : Nat) : ChartOutcome :=
  match Dao.get_token_hour_data hourState (pyUpper token_symbol) with
  | [] => .indexError
  | first :: rest =>
    if time_unit_hours = 0 then .valueError
    else
      .ok ⟨Dao.get_token_metadata metaState (pyUpper token_symbol),
        chartSeries (first :: rest) first
          ((first :: rest).getLast (List.cons_ne_nil first rest))
          (3600 * time_unit_hours)⟩

/-- Claim C9: a symbol with zero stored samples makes the handler fail (the
`IndexError` realising the spec's `NoDataError`) — it never returns a
successful empty body. -/
theorem get_chart_data_no_data (hourState : List Dao.TokenHourData)
    (metaState : List Dao.Token) (sym : String) (u : Nat)
    (h : Dao.get_token_hour_data hourState (pyUpper sym) = []) :
    get_chart_data hourState metaState sym u = .indexError := by
  rw [get_chart_data, h]

/-- Witness for claim C9: the empty table has no samples for `"BTC"` and the
handler errors out. -/
theorem get_chart_data_no_data_witness :
    Dao.get_token_hour_data [] (pyUpper "BTC") = [] ∧
    get_chart_data [] [] "BTC" 1 = .indexError :=
  ⟨by decide, get_chart_data_no_data [] [] "BTC" 1 (by decide)⟩

/-- Claim C10: the handler uppercases the path parameter before both the
hour-data and the metadata lookup, so any two spellings with the same
uppercase form — in particular every casing variant of a stored all-uppercase
symbol — produce identical responses. -/
theorem get_chart_data_case_insensitive (hourState : List Dao.TokenHourData)
    (metaState : List Dao.Token) (s1 s2 : String) (u : Nat)
    (h : pyUpper s1 = pyUpper s2) :
    get_chart_data hourState metaState s1 u =
      get_chart_data hourState metaState s2 u := by
  rw [get_chart_data, get_chart_data, h]

/-- Witness for claim C10: `"wBtC"` and `"WBTC"` uppercase alike and get the
same answer on a table storing the row under `"WBTC"`. -/
theorem get_chart_data_case_insensitive_witness :
    pyUpper "wBtC" = pyUpper "WBTC" ∧
    get_chart_data [rowWBTC] [] "wBtC" 1 = get_chart_data [rowWBTC] [] "WBTC" 1 :=
  ⟨by decide,
    get_chart_data_case_insensitive [rowWBTC] [] "wBtC" "WBTC" 1 (by decide)⟩

/-- Keys of an association-list dict, in insertion order. -/
def dictKeys (d : List (Nat × List ℚ)) : List Nat := d.map Prod.fst

theorem mem_dictKeys_iff_any (d : List (Nat × List ℚ)) (k : Nat) :
    d.any (fun kv => decide (kv.1 = k)) = true ↔ k ∈ dictKeys d := by
  rw [List.any_eq_true, dictKeys]
  constructor
  · rintro ⟨kv, hkv, hk⟩
    exact List.mem_map.mpr ⟨kv, hkv, of_decide_eq_true hk⟩
  · rintro h
    obtain ⟨kv, hkv, hk⟩ := List.mem_map.mp h
    exact ⟨kv, hkv, decide_eq_true hk⟩

/-- Seeding folds (`pyDictSet` with an empty value list) keep the dict keys
duplicate-free and every value list empty. -/
theorem foldl_pyDictSet_nil_invariant (f : Nat → Nat) :
    ∀ (ks : List Nat) (d : List (Nat × List ℚ)),
      (dictKeys d).Nodup → (∀ kv ∈ d, kv.2 = ([] : List ℚ)) →
      (dictKeys (ks.foldl (fun d s => pyDictSet d (f s) []) d)).Nodup ∧
      ∀ kv ∈ ks.foldl (fun d s => pyDictSet d (f s) []) d, kv.2 = ([] : List ℚ) := by
  intro ks
  induction ks with
  | nil => intro d h1 h2; exact ⟨h1, h2⟩
  | cons s rest ih =>
    intro d h1 h2
    rw [List.foldl_cons]
    refine ih (pyDictSet d (f s) []) ?_ ?_
    · rw [pyDictSet]
      split
      · have : dictKeys (d.map (fun kv => if kv.1 = f s then (kv.1, ([] : List ℚ)) else kv)) =
            dictKeys d := by
          rw [dictKeys, dictKeys, List.map_map]
          refine List.map_congr_left ?_
          intro kv _
          by_cases hkv : kv.1 = f s <;> simp [hkv]
        rw [this]; exact h1
      · rename_i hany
        rw [dictKeys, List.map_append]
        refine List.Nodup.append h1 (by simp) ?_
        intro a ha hb
        simp only [List.map_cons, List.map_nil, List.mem_singleton] at hb
        rw [Bool.not_eq_true, ← Bool.not_eq_true] at hany
        exact hany (by rw [mem_dictKeys_iff_any]; rw [hb] at ha; exact ha)
    · intro kv hkv
      rw [pyDictSet] at hkv
      split at hkv
      · obtain ⟨kv', hkv', hupd⟩ := List.mem_map.mp hkv
        by_cases h : kv'.1 = f s
        · rw [if_pos h] at hupd; rw [← hupd]
        · rw [if_neg h] at hupd; rw [← hupd]; exact h2 kv' hkv'
      · rcases List.mem_append.mp hkv with h | h
        · exact h2 kv h
        · simp only [List.mem_singleton] at h
          rw [h]

/-- Grouping correctness of the handler's accumulation loop: starting from a
dict whose value lists are exactly the values of the already processed
entries per bucket (and which covers every processed entry's bucket), after
folding in `entries` every bucket's value list is exactly the attribute
values, in order, of all entries that map to that bucket. -/
theorem groupChunks_spec (b : Nat) (value : Dao.TokenHourData → ℚ) :
    ∀ (entries : List Dao.TokenHourData) (d : List (Nat × List ℚ))
      (processed : List Dao.TokenHourData),
      (dictKeys d).Nodup →
      (∀ kv ∈ d, kv.2 =
        (processed.filter (fun e => decide (e.period_start_unix / b = kv.1))).map value) →
      (∀ e ∈ processed, e.period_start_unix / b ∈ dictKeys d) →
      ∀ kv ∈ groupChunks d entries value b, kv.2 =
        ((processed ++ entries).filter
          (fun e => decide (e.period_start_unix / b = kv.1))).map value := by
  intro entries
  induction entries with
  | nil =>
    intro d processed _ hval _
    simpa [groupChunks] using hval
  | cons e rest ih =>
    intro d processed hnodup hval hcov
    have hstep : groupChunks d (e :: rest) value b =
        groupChunks (pyDictAppendVal d (e.period_start_unix / b) (value e))
          rest value b := rfl
    rw [hstep]
    have hassoc : processed ++ e :: rest = (processed ++ [e]) ++ rest := by
      simp
    rw [hassoc]
    by_cases hk : d.any (fun kv => decide (kv.1 = e.period_start_unix / b)) = true
    · have hd' : pyDictAppendVal d (e.period_start_unix / b) (value e) =
          d.map (fun kv => if kv.1 = e.period_start_unix / b
            then (kv.1, kv.2 ++ [value e]) else kv) := by
        rw [pyDictAppendVal, if_pos hk]
      rw [hd']
      have hkeys : dictKeys (d.map (fun kv => if kv.1 = e.period_start_unix / b
          then (kv.1, kv.2 ++ [value e]) else kv)) = dictKeys d := by
        rw [dictKeys, dictKeys, List.map_map]
        refine List.map_congr_left ?_
        intro kv _
        by_cases hkv : kv.1 = e.period_start_unix / b <;> simp [hkv]
      refine ih _ (processed ++ [e]) (by rw [hkeys]; exact hnodup) ?_ ?_
      · intro kv hkv
        obtain ⟨kv', hkv', hupd⟩ := List.mem_map.mp hkv
        rw [List.filter_append, List.map_append]
        by_cases h : kv'.1 = e.period_start_unix / b
        · rw [if_pos h] at hupd
          rw [← hupd]
          simp only
          rw [hval kv' hkv']
          have : List.filter (fun e' => decide (e'.period_start_unix / b = kv'.1)) [e] =
              [e] := by
            simp [h]
          rw [this]
          simp
        · rw [if_neg h] at hupd
          rw [← hupd, hval kv' hkv']
          have : List.filter (fun e' => decide (e'.period_start_unix / b = kv'.1)) [e] =
              [] := by
            rw [List.filter_eq_nil_iff]
            intro e' he'
            simp only [List.mem_singleton] at he'
            subst he'
            simp only [decide_eq_true_eq]
            exact fun hc => h hc.symm
          rw [this]
          simp
      · intro e' he'
        rw [hkeys]
        rcases List.mem_append.mp he' with h | h
        · exact hcov e' h
        · simp only [List.mem_singleton] at h
          rw [h, ← mem_dictKeys_iff_any]
          exact hk
    · have hknot : e.period_start_unix / b ∉ dictKeys d := by
        rw [← mem_dictKeys_iff_any]
        simpa using hk
      have hd' : pyDictAppendVal d (e.period_start_unix / b) (value e) =
          d ++ [(e.period_start_unix / b, [value e])] := by
        rw [pyDictAppendVal, if_neg (by simpa using hk)]
      rw [hd']
      have hkeys : dictKeys (d ++ [(e.period_start_unix / b, [value e])]) =
          dictKeys d ++ [e.period_start_unix / b] := by
        rw [dictKeys, List.map_append]; rfl
      refine ih _ (processed ++ [e]) ?_ ?_ ?_
      · rw [hkeys]
        refine List.Nodup.append hnodup (by simp) ?_
        intro a ha hb
        simp only [List.mem_singleton] at hb
        rw [hb] at ha
        exact hknot ha
      · intro kv hkv
        rw [List.filter_append, List.map_append]
        rcases List.mem_append.mp hkv with h | h
        · have hne : kv.1 ≠ e.period_start_unix / b := by
            intro hc
            exact hknot (hc ▸ List.mem_map.mpr ⟨kv, h, rfl⟩)
          rw [hval kv h]
          have : List.filter (fun e' => decide (e'.period_start_unix / b = kv.1)) [e] =
              [] := by
            rw [List.filter_eq_nil_iff]
            intro e' he'
            simp only [List.mem_singleton] at he'
            subst he'
            simp only [decide_eq_true_eq]
            exact fun hc => hne hc.symm
          rw [this]
          simp
        · simp only [List.mem_singleton] at h
          rw [h]
          simp only
          have hproc : List.filter
              (fun e' => decide (e'.period_start_unix / b = e.period_start_unix / b))
              processed = [] := by
            rw [List.filter_eq_nil_iff]
            intro e' he'
            simp only [decide_eq_true_eq]
            intro hc
            exact hknot (hc ▸ hcov e' he')
          rw [hproc]
          have : List.filter
              (fun e' => decide (e'.period_start_unix / b = e.period_start_unix / b))
              [e] = [e] := by
            simp
          rw [this]
          simp
      · intro e' he'
        rw [hkeys]
        rcases List.mem_append.mp he' with h | h
        · exact List.mem_append.mpr (Or.inl (hcov e' h))
        · simp only [List.mem_singleton] at h
          rw [h]
          exact List.mem_append.mpr (Or.inr (by simp))

/-- Attribute values, in stored order, of the samples falling into bucket
`k` at width `bucketSecs` — the reference list a bucket's average must be
computed from. -/
def bucketValues (samples : List Dao.TokenHourData) (bucketSecs k : Nat)
    (attr : String) : List ℚ :=
  (samples.filter (fun e => decide (e.period_start_unix / bucketSecs = k))).map
    (fun e => getAttr e attr)

/-- Claim C8: for a symbol with stored samples and positive `time_unit_hours`,
every triple the handler emits carries, per attribute, either an explicit
absent marker (`None`, never zero) when its bucket received no sample values,
or the average `sum(values)/len(values)` of exactly the attribute values of
the stored samples mapping to that bucket. -/
theorem get_chart_data_bucket_averages (hourState : List Dao.TokenHourData)
    (metaState : List Dao.Token) (sym : String) (u : Nat) (resp : ChartResponse)
    (hu : 0 < u)
    (hok : get_chart_data hourState metaState sym u = .ok resp) :
    ∀ series ∈ resp.hour_data_result, ∀ t ∈ series, ∃ attr ∈ attrNames, ∃ k : Nat,
      t.1 = k * (3600 * u) ∧ t.2.1 = attr ∧
      t.2.2 =
        if (bucketValues (Dao.get_token_hour_data hourState (pyUpper sym))
            (3600 * u) k attr).isEmpty then none
        else some ((bucketValues (Dao.get_token_hour_data hourState (pyUpper sym))
            (3600 * u) k attr).sum /
          (bucketValues (Dao.get_token_hour_data hourState (pyUpper sym))
            (3600 * u) k attr).length) := by
  rcases hs : Dao.get_token_hour_data hourState (pyUpper sym) with _ | ⟨first, rest⟩
  · rw [get_chart_data, hs] at hok
    exact absurd hok (by simp)
  · rw [get_chart_data, hs] at hok
    have hok2 : (if u = 0 then ChartOutcome.valueError
        else ChartOutcome.ok ⟨Dao.get_token_metadata metaState (pyUpper sym),
          chartSeries (first :: rest) first
            ((first :: rest).getLast (List.cons_ne_nil first rest))
            (3600 * u)⟩) = ChartOutcome.ok resp := hok
    rw [if_neg (Nat.pos_iff_ne_zero.mp hu)] at hok2
    injection hok2 with hresp
    subst hresp
    intro series hseries t ht
    rw [chartSeries] at hseries
    obtain ⟨attr, hattr, rfl⟩ := List.mem_map.mp hseries
    rw [chunkAverages] at ht
    obtain ⟨kv, hkv, rfl⟩ := List.mem_map.mp ht
    refine ⟨attr, hattr, kv.1, rfl, rfl, ?_⟩
    have hseed := foldl_pyDictSet_nil_invariant (fun s => s / (3600 * u))
      (pyRange first.period_start_unix
        (((first :: rest).getLast (List.cons_ne_nil first rest)).period_start_unix)
        (3600 * u))
      [] (by simp [dictKeys]) (by simp)
    have hspec := groupChunks_spec (3600 * u) (fun e => getAttr e attr)
      (first :: rest)
      (seedChunks first.period_start_unix
        (((first :: rest).getLast (List.cons_ne_nil first rest)).period_start_unix)
        (3600 * u))
      [] hseed.1
      (fun kv hkv => (hseed.2 kv hkv).trans rfl)
      (by intro e he; cases he)
      kv hkv
    simp only [List.nil_append] at hspec
    dsimp only
    rw [bucketValues, ← hspec]

/-- Expected response for the one-row table `[rowWBTC]` at one-hour buckets:
a single bucket (key 1) per attribute holding the row's own value as its
average. -/
def respWBTC : ChartResponse :=
  ⟨none, [[(3600, "open", some 10)], [(3600, "close", some 11)],
    [(3600, "high", some 12)], [(3600, "low", some 9)],
    [(3600, "price_usd", some 10)]]⟩

/-- Concrete evaluation of the handler on the one-row table, used to
discharge the hypotheses of the C8 witness. -/
theorem get_chart_data_rowWBTC_eval :
    get_chart_data [rowWBTC] [] "WBTC" 1 = .ok respWBTC := by
  have hup : pyUpper "WBTC" = "WBTC" := by decide
  norm_num [get_chart_data, Dao.get_token_hour_data, Dao.get_token_metadata, hup,
    chartSeries, seedChunks, groupChunks, chunkAverages, pyRange, pyDictSet,
    pyDictAppendVal, attrNames, getAttr, rowWBTC, respWBTC,
    List.insertionSort, List.orderedInsert, List.filter, List.foldl]
  decide

/-- Witness for claim C8: on the one-row table, every emitted triple matches
the bucket-average characterisation. -/
theorem get_chart_data_bucket_averages_witness :
    ((0 : Nat) < 1 ∧ get_chart_data [rowWBTC] [] "WBTC" 1 = .ok respWBTC) ∧
    (∀ series ∈ respWBTC.hour_data_result, ∀ t ∈ series,
      ∃ attr ∈ attrNames, ∃ k : Nat,
        t.1 = k * (3600 * 1) ∧ t.2.1 = attr ∧
        t.2.2 =
          if (bucketValues (Dao.get_token_hour_data [rowWBTC] (pyUpper "WBTC"))
              (3600 * 1) k attr).isEmpty then none
          else some ((bucketValues (Dao.get_token_hour_data [rowWBTC] (pyUpper "WBTC"))
              (3600 * 1) k attr).sum /
            (bucketValues (Dao.get_token_hour_data [rowWBTC] (pyUpper "WBTC"))
              (3600 * 1) k attr).length)) :=
  ⟨⟨by decide, get_chart_data_rowWBTC_eval⟩,
    get_chart_data_bucket_averages [rowWBTC] [] "WBTC" 1 respWBTC (by decide)
      get_chart_data_rowWBTC_eval⟩

/-- Storage state of the C3 scenario: symbol `"WBTC"` with samples at
`periodStartUnix = 100` (open 100.0) and `360100` (open 200.0), nothing in
between. -/
def c3State : List Dao.TokenHourData :=
  [⟨"WBTC", 100, 100, 1, 1, 1, 1⟩, ⟨"WBTC", 360100, 200, 2, 2, 2, 2⟩]

/-- Extracts the `open` attribute's series of averages from a handler
outcome (the first group of the 3d array). -/
def chartOpenAvgs (o : ChartOutcome) : Option (List (Option ℚ)) :=
  match o with
  | .ok r => r.hour_data_result.head?.map (List.map (fun t => t.2.2))
  | _ => none

set_option maxRecDepth 40000 in
/-- Counterexample to claim C3 as stated: on the scenario state the handler
emits 101 buckets for `open`, not the 100 the claim promises — the
pre-seeding covers keys 0..99 but the sample at 360100 adds bucket key 100
during grouping. -/
theorem get_chart_data_c3_bucket_count :
    (chartOpenAvgs (get_chart_data c3State [] "WBTC" 1)).map List.length =
      some 101 ∧
    ¬((chartOpenAvgs (get_chart_data c3State [] "WBTC" 1)).map List.length =
      some 100) := by
  exact ⟨by decide, by decide⟩

set_option maxRecDepth 40000 in
/-- Claim C3 (amended): the scenario yields 101 buckets for `open`; the
first holds average 100.0, the last holds average 200.0, and the 99
intermediate buckets all hold the absent marker. -/
theorem get_chart_data_c3_amended :
    (chartOpenAvgs (get_chart_data c3State [] "WBTC" 1)).map List.length =
      some 101 ∧
    (chartOpenAvgs (get_chart_data c3State [] "WBTC" 1)).bind List.head? =
      some (some 100) ∧
    (chartOpenAvgs (get_chart_data c3State [] "WBTC" 1)).bind List.getLast? =
      some (some 200) ∧
    (chartOpenAvgs (get_chart_data c3State [] "WBTC" 1)).map
        (fun l => (l.drop 1).take 99) = some (List.replicate 99 none) := by
  refine ⟨by decide, ?_, ?_, by decide⟩
  · have h : (chartOpenAvgs (get_chart_data c3State [] "WBTC" 1)).bind List.head? =
        some (some (List.sum [(100 : ℚ)] / ((List.length [(100 : ℚ)] : Nat) : ℚ))) :=
      rfl
    rw [h]
    norm_num
  · have h : (chartOpenAvgs (get_chart_data c3State [] "WBTC" 1)).bind List.getLast? =
        some (some (List.sum [(200 : ℚ)] / ((List.length [(200 : ℚ)] : Nat) : ℚ))) :=
      rfl
    rw [h]
    norm_num

end SubgraphDemo
